import Mathlib

/-!
Verification of the flight-delay pipeline of this repository.

The development shallowly embeds the core pipeline of src/rksimapapp.py
(timestamp parsing and resolution, delay metrics, monthly taxi-time
statistics, statistical delay classification) and the per-record delay
computation of src/snowdelay_app.py.

Modelling conventions:
* Absolute timestamps are integers counting minutes (pandas timestamps in
  the source always have zero seconds here, since every parsed format is
  date + HH:MM).  Calendar conversion uses the standard civil-calendar
  day-numbering algorithm; `t / 1440` is the calendar day of a timestamp
  and `t % 1440` the minute of day (Int division is Euclidean, which
  coincides with floor division for the positive modulus used here).
* A pandas missing value (NaN / NaT, or an absent column) is `Option.none`.
* Python float / int parsing of cell strings is embedded over ℚ / ℤ; the
  non-finite float tokens ("nan", "inf", "infinity"), which have no
  rational counterpart, are outside the modelled grammar, and strptime's
  regex backtracking over non-canonical date tokens is not modelled: date
  tokens are 6-digit YYMMDD strings per the data contract of the source.
-/

namespace AirportDelay

/-- Numeric value of an ASCII digit character. -/
def digitVal (c : Char) : ℕ := c.toNat - 48

/-- Accumulating scanner for a Python integer-literal digit run: ASCII
digits, optionally separated by single underscores (an underscore must be
followed by a digit; the run may not end in an underscore).  Returns the
value and the number of digits consumed. -/
def runValAux : List Char → ℕ → ℕ → Option (ℕ × ℕ)
  | [], acc, cnt => some (acc, cnt)
  | c :: rest, acc, cnt =>
    if c.isDigit then runValAux rest (10 * acc + digitVal c) (cnt + 1)
    else if c = '_' then
      match rest with
      | [] => none
      | d :: _ => if d.isDigit then runValAux rest acc cnt else none
    else none

/-- A nonempty Python digit run (must start with a digit). -/
def runVal (cs : List Char) : Option (ℕ × ℕ) :=
  match cs with
  | [] => none
  | c :: _ => if c.isDigit then runValAux cs 0 0 else none

/-- A possibly-empty digit run (empty counts as value 0 with 0 digits);
used for the integer / fractional parts around a decimal point. -/
def runValOrEmpty (cs : List Char) : Option (ℕ × ℕ) :=
  match cs with
  | [] => some (0, 0)
  | _ => runVal cs

/-- Python `int(...)` applied to a character list: optional sign, then a
digit run. -/
def pyIntOfChars (cs : List Char) : Option ℤ :=
  match cs with
  | '+' :: rest => (runVal rest).map fun p => (p.1 : ℤ)
  | '-' :: rest => (runVal rest).map fun p => -(p.1 : ℤ)
  | _ => (runVal cs).map fun p => (p.1 : ℤ)

/-- Whitespace in the sense of Python str.strip(). -/
def isWsChar (c : Char) : Bool :=
  c = ' ' ∨ c = '\t' ∨ c = '\n' ∨ c = '\r' ∨ c = '\x0b' ∨ c = '\x0c'

/-- str.strip() on a character list. -/
def charTrim (cs : List Char) : List Char :=
  ((cs.dropWhile isWsChar).reverse.dropWhile isWsChar).reverse

/-- Python `int(str)`: surrounding whitespace is stripped first. -/
def pyInt (s : String) : Option ℤ := pyIntOfChars (charTrim s.data)

/-- Split a character list at the first exponent marker (e or E). -/
def splitAtExp : List Char → List Char × Option (List Char)
  | [] => ([], none)
  | c :: rest =>
    if c = 'e' ∨ c = 'E' then ([], some rest)
    else
      let p := splitAtExp rest
      (c :: p.1, p.2)

/-- Split a character list at the first decimal point. -/
def splitAtDot : List Char → List Char × Option (List Char)
  | [] => ([], none)
  | c :: rest =>
    if c = '.' then ([], some rest)
    else
      let p := splitAtDot rest
      (c :: p.1, p.2)

/-- Mantissa of a Python float literal: digits, optionally with one
decimal point; at least one digit overall. -/
def mantissaVal (cs : List Char) : Option ℚ :=
  let p := splitAtDot cs
  match p.2 with
  | none => (runVal cs).map fun v => (v.1 : ℚ)
  | some frac =>
    if frac.contains '.' then none
    else
      match runValOrEmpty p.1, runValOrEmpty frac with
      | some iv, some fv =>
        if iv.2 + fv.2 = 0 then none
        else some ((iv.1 : ℚ) + (fv.1 : ℚ) / (10 : ℚ) ^ fv.2)
      | _, _ => none

/-- Python `float(...)` applied to a character list (finite decimal
grammar: sign, mantissa, optional exponent). -/
def pyFloatOfChars (cs : List Char) : Option ℚ :=
  let sb : ℚ × List Char :=
    match cs with
    | '+' :: rest => (1, rest)
    | '-' :: rest => (-1, rest)
    | _ => (1, cs)
  let p := splitAtExp sb.2
  match mantissaVal p.1 with
  | none => none
  | some mv =>
    match p.2 with
    | none => some (sb.1 * mv)
    | some ex =>
      match pyIntOfChars ex with
      | none => none
      | some e =>
        if 0 ≤ e then some (sb.1 * mv * (10 : ℚ) ^ e.toNat)
        else some (sb.1 * mv / (10 : ℚ) ^ (-e).toNat)

/-- Python `float(str)`: surrounding whitespace is stripped first. -/
def pyFloat (s : String) : Option ℚ := pyFloatOfChars (charTrim s.data)

/-- One or two ASCII digits, greedily, as in strptime's %H / %M fields;
returns the value and the rest of the input. -/
def twoDigit : List Char → Option (ℕ × List Char)
  | [] => none
  | c :: rest =>
    if c.isDigit then
      match rest with
      | d :: rest2 =>
        if d.isDigit then some (10 * digitVal c + digitVal d, rest2)
        else some (digitVal c, rest)
      | [] => some (digitVal c, [])
    else none

/-- Strict HH:MM parse, as `pd.to_datetime(s, format='%H:%M')` in the
source: 1-2 digit hour in 0..23, a colon, 1-2 digit minute in 0..59, and
nothing else.  (For out-of-range two-digit values strptime backtracks to a
one-digit match and then fails on the leftover digit, so acceptance
coincides with this direct formulation.) -/
def parseClockChars (cs : List Char) : Option (ℕ × ℕ) :=
  match twoDigit cs with
  | none => none
  | some (h, rest) =>
    match rest with
    | ':' :: rest2 =>
      match twoDigit rest2 with
      | none => none
      | some (m, rest3) =>
        if rest3 = [] ∧ h ≤ 23 ∧ m ≤ 59 then some (h, m) else none
    | _ => none

/-- HH:MM clock parse on a string (no whitespace stripping: the source
applies str() but not strip() to the RAM / ATD cells). -/
def parseClock (s : String) : Option (ℕ × ℕ) := parseClockChars s.data

/-- Gregorian leap-year test. -/
def isLeap (y : ℤ) : Bool := y % 4 == 0 && (y % 100 != 0 || y % 400 == 0)

/-- Days in a month of the proleptic Gregorian calendar. -/
def daysInMonth (y m : ℤ) : ℤ :=
  if m = 2 then (if isLeap y then 29 else 28)
  else if m = 4 ∨ m = 6 ∨ m = 9 ∨ m = 11 then 30 else 31

/-- Day number of a civil date (standard civil-from-days algorithm,
day 0 = 1970-01-01). -/
def daysFromCivil (y m d : ℤ) : ℤ :=
  let y2 := if m ≤ 2 then y - 1 else y
  let era := y2 / 400
  let yoe := y2 - era * 400
  let mp := (m + 9) % 12
  let doy := (153 * mp + 2) / 5 + d - 1
  let doe := yoe * 365 + yoe / 4 - yoe / 100 + doy
  era * 146097 + doe - 719468

/-- Civil date (year, month, day) of a day number. -/
def civilFromDays (z : ℤ) : ℤ × ℤ × ℤ :=
  let z2 := z + 719468
  let era := z2 / 146097
  let doe := z2 - era * 146097
  let yoe := (doe - doe / 1460 + doe / 36524 - doe / 146096) / 365
  let y := yoe + era * 400
  let doy := doe - (365 * yoe + yoe / 4 - yoe / 100)
  let mp := (5 * doy + 2) / 153
  let d := doy - (153 * mp + 2) / 5 + 1
  let m := mp + (if mp < 10 then 3 else -9)
  (if m ≤ 2 then y + 1 else y, m, d)

/-- Calendar day of a timestamp in minutes. -/
def dayOf (t : ℤ) : ℤ := t / 1440

/-- First minute of the calendar day of a timestamp. -/
def dayStart (t : ℤ) : ℤ := t - t % 1440

/-- Hour-of-day component of a timestamp, as `.hour` in the source. -/
def tsHour (t : ℤ) : ℤ := t % 1440 / 60

/-- `ts.replace(hour := h, minute := m)` of the source: same calendar
day, given hour and minute (seconds are always zero here). -/
def replaceHM (t : ℤ) (h m : ℕ) : ℤ := dayStart t + 60 * h + m

/-- Calendar year-month of a timestamp, as `.dt.to_period('M')`. -/
def ymOf (t : ℤ) : ℤ × ℤ :=
  ((civilFromDays (dayOf t)).1, (civilFromDays (dayOf t)).2.1)

/-- `parse_dt` of src/rksimapapp.py: strips both tokens, prefixes the
date token with "20" and parses `%Y%m%d %H:%M`.  The date token must be a
6-digit YYMMDD string naming a valid calendar date; the time token must
be a valid HH:MM clock string.  Any malformed token yields `none` (the
source catches the exception and returns NaT). -/
def parse_dt (dateStr timeStr : String) : Option ℤ :=
  match charTrim dateStr.data with
  | [c1, c2, c3, c4, c5, c6] =>
    if c1.isDigit ∧ c2.isDigit ∧ c3.isDigit ∧ c4.isDigit ∧ c5.isDigit ∧ c6.isDigit then
      let y : ℤ := 2000 + 10 * digitVal c1 + digitVal c2
      let mo : ℤ := 10 * digitVal c3 + digitVal c4
      let da : ℤ := 10 * digitVal c5 + digitVal c6
      if 1 ≤ mo ∧ mo ≤ 12 ∧ 1 ≤ da ∧ da ≤ daysInMonth y mo then
        (parseClockChars (charTrim timeStr.data)).map fun hm =>
          daysFromCivil y mo da * 1440 + 60 * hm.1 + hm.2
      else none
    else none
  | _ => none

/-- A raw cell that the source passes to `float(...)`: either an already
numeric value or a string. -/
inductive CellVal where
  | num (q : ℚ)
  | str (s : String)
deriving DecidableEq, Repr

/-- `float(cell)`: identity on numeric cells, Python float parsing on
string cells. -/
def pyFloatCell : CellVal → Option ℚ
  | .num q => some q
  | .str s => pyFloat s

/-- One raw flight row, restricted to the columns the core pipeline
reads.  `date` and `std` are plain strings ('Date' is astype(str)'d and
'STD' goes through str(); a missing cell reads "nan", which never
parses); `ram`, `atd`, `atdRam` are `none` when the column is absent or
the cell is NaN (`pd.notna` / `in row` guards in the source). -/
structure Row where
  date : String
  std : String
  ram : Option String
  atd : Option String
  atdRam : Option CellVal
deriving DecidableEq, Repr

/-- Midnight-rollover resolution of a bare clock time against the
scheduled timestamp (the RAM block of `calc_all_times`): place the
candidate on the anchor's calendar day, then shift it one day back /
forward when anchor and candidate hours witness a rollover. -/
def rolloverResolve (std : ℤ) (h m : ℕ) : ℤ :=
  let c := replaceHM std h m
  if tsHour std < 4 ∧ tsHour c > 20 then c - 1440
  else if tsHour std > 20 ∧ tsHour c < 4 then c + 1440
  else c

/-- RAM resolution of `calc_all_times`: parse the RAM cell as HH:MM and
apply the rollover rule against the scheduled timestamp; `none` when the
cell is missing or unparseable. -/
def resolveRam (std : ℤ) (ramCell : Option String) : Option ℤ :=
  ramCell.bind fun s =>
    (parseClock s).map fun hm => rolloverResolve std hm.1 hm.2

/-- ATD resolution of `calc_all_times`: the base is the resolved RAM
timestamp when present, else the scheduled timestamp; the candidate is
placed on the base's calendar day and one day is added when it falls
strictly before the base. -/
def resolveAtd (std : ℤ) (ramTs : Option ℤ) (atdCell : Option String) : Option ℤ :=
  atdCell.bind fun s =>
    (parseClock s).map fun hm =>
      let base := ramTs.getD std
      let c := replaceHM base hm.1 hm.2
      if c < base then c + 1440 else c

/-- The five derived columns produced by `calc_all_times`. -/
structure Derived where
  ramFull : Option ℤ
  atdFull : Option ℤ
  rampDelay : ℚ
  taxiTime : ℚ
  totalDelay : ℚ
deriving DecidableEq, Repr

/-- `calc_all_times` of src/rksimapapp.py: resolve RAM and ATD against
the parsed scheduled timestamp and derive the three metrics; when the
scheduled timestamp does not parse everything is absent / zero. -/
def calc_all_times (r : Row) : Derived :=
  match parse_dt r.date r.std with
  | none => ⟨none, none, 0, 0, 0⟩
  | some std =>
    let ram := resolveRam std r.ram
    let atd := resolveAtd std ram r.atd
    let totalDelay : ℚ :=
      match atd with
      | some a => ((a - std : ℤ) : ℚ)
      | none => 0
    let rampDelay : ℚ :=
      match ram with
      | some rm => ((rm - std : ℤ) : ℚ)
      | none => 0
    let taxiTime : ℚ :=
      match r.atdRam with
      | some v => (pyFloatCell v).getD 0
      | none =>
        match atd, ram with
        | some a, some rm => ((a - rm : ℤ) : ℚ)
        | _, _ => 0
    ⟨ram, atd, rampDelay, taxiTime, totalDelay⟩

/-- `classify_delay_stat` of src/rksimapapp.py, verbatim: the merged
Limit_1Sigma cell is `Option ℚ` (`none` = NaN). -/
def classify_delay_stat (totalDelay rampDelay taxiTime : ℚ)
    (limit1Sigma : Option ℚ) : String :=
  if totalDelay ≤ 15 then "Normal"
  else if rampDelay ≥ 15 then "Ramp (Gate)"
  else
    let limit : ℚ :=
      match limit1Sigma with
      | some l => l
      | none => 30
    if taxiTime > limit then "Taxi (Ground)"
    else "Taxi (Ground)"

/-- Sample mean of a list of rationals (pandas `mean`). -/
def sampleMean (xs : List ℚ) : ℚ := xs.sum / xs.length

/-- Sample variance of a list of rationals (pandas `std` uses ddof = 1
and yields NaN for fewer than 2 samples, modelled as `none`).  The source
stores the sample standard deviation, the square root of this value; the
square root is irrational in general and, in the core pipeline, only the
NaN-ness of the standard deviation is observable (the classifier's use of
the derived limit is a dead branch, see the claim C1 theorem), and taking
the square root preserves NaN-ness, so the embedding carries the exact
rational variance instead and takes square roots nowhere. -/
def sampleVar (xs : List ℚ) : Option ℚ :=
  if xs.length < 2 then none
  else some (((xs.map fun x => (x - sampleMean xs) ^ 2).sum) / ((xs.length : ℚ) - 1))

/-- One row of the monthly statistics table (`stats` in `load_data`):
group key, mean taxi time, and the sample variance standing in for the
standard deviation (see `sampleVar`). -/
structure MonthStats where
  ym : ℤ × ℤ
  mean : ℚ
  std2 : Option ℚ
deriving DecidableEq, Repr

/-- Year-month group key of a row: the period of its scheduled timestamp,
`none` when the scheduled timestamp did not parse (NaT period). -/
def ymKey (r : Row) : Option (ℤ × ℤ) := (parse_dt r.date r.std).map ymOf

/-- The monthly taxi-time statistics table of `load_data`: filter to rows
with positive taxi time, group by year-month of the scheduled timestamp
(groupby drops NaT keys, and forms a group only when it has at least one
member), and aggregate mean and (the variance surrogate of) the sample
standard deviation per group.  The source sorts group keys; key order is
immaterial to the left merge, and first-occurrence order is used here. -/
def statsTable (rows : List Row) : List MonthStats :=
  let valid := rows.filter fun r => 0 < (calc_all_times r).taxiTime
  ((valid.filterMap ymKey).dedup).map fun ym =>
    let xs := (valid.filter fun r => ymKey r = some ym).map
      fun r => (calc_all_times r).taxiTime
    ⟨ym, sampleMean xs, sampleVar xs⟩

/-- All statistics rows matching a (possibly NaT) group key, as the
right-hand matches of `pd.merge(..., on='YM', how='left')`; a NaT key
matches nothing. -/
def lookupAll (table : List MonthStats) (ym : Option (ℤ × ℤ)) : List MonthStats :=
  match ym with
  | none => []
  | some k => table.filter fun s => s.ym = k

/-- One record of the enriched output stream. -/
structure OutRecord where
  row : Row
  derived : Derived
  ym : Option (ℤ × ℤ)
  limit1Sigma : Option ℚ
  delayCause : String
deriving DecidableEq, Repr

/-- Output record for one row given its merged statistics cell. -/
def mkOut (r : Row) (k : Option (ℤ × ℤ)) (lim : Option ℚ) : OutRecord :=
  let d := calc_all_times r
  ⟨r, d, k, lim, classify_delay_stat d.totalDelay d.rampDelay d.taxiTime lim⟩

/-- The Limit_1Sigma cell contributed by one statistics row:
mean + std, NaN (`none`) exactly when the standard deviation is NaN. -/
def limitOf (s : MonthStats) : Option ℚ := s.std2.map fun v => s.mean + v

/-- Per-row step of the core pipeline: left-merge the row against the
statistics table on its year-month key (an unmatched row keeps NaN
statistics; duplicate matches would duplicate the row, as in pandas) and
classify. -/
def pipelineRow (table : List MonthStats) (r : Row) : List OutRecord :=
  match lookupAll table (ymKey r) with
  | [] => [mkOut r (ymKey r) none]
  | ms => ms.map fun s => mkOut r (ymKey r) (limitOf s)

/-- The core pipeline of `load_data` (excluding the stand/zone join):
derive timestamps and metrics per row, aggregate the monthly statistics
over the whole batch, left-merge and classify. -/
def pipeline (rows : List Row) : List OutRecord :=
  rows.flatMap (pipelineRow (statsTable rows))

/-- str.split(':') on a character list: colon-separated fields (an empty
string yields one empty field, as in Python). -/
def splitColon : List Char → List (List Char)
  | [] => [[]]
  | c :: rest =>
    let r := splitColon rest
    if c = ':' then [] :: r
    else
      match r with
      | [] => [[c]]
      | a :: as2 => (c :: a) :: as2

/-- `calculate_delay_minutes` clock parse of src/snowdelay_app.py:
`map(int, str(x).split(':'))` unpacked into two variables — exactly two
colon-separated fields, each a Python int literal. -/
def parseHM (s : String) : Option (ℤ × ℤ) :=
  match splitColon s.data with
  | [a, b] => (pyIntOfChars (charTrim a)).bind fun h =>
      (pyIntOfChars (charTrim b)).map fun m => (h, m)
  | _ => none

/-- `calculate_delay_minutes` of src/snowdelay_app.py: minutes-of-day
difference ATD - STD, folded by ±1440 when it falls outside (-720, 720];
`none` when either token fails to parse (the bare except). -/
def calculate_delay_minutes (stdCell atdCell : String) : Option ℤ :=
  match parseHM stdCell, parseHM atdCell with
  | some std, some atd =>
    let stdMins := std.1 * 60 + std.2
    let atdMins := atd.1 * 60 + atd.2
    let diff := atdMins - stdMins
    if diff < -720 then some (diff + 1440)
    else if diff > 720 then some (diff - 1440)
    else some diff
  | _, _ => none

/-! ### Specification-side formulations -/

/-- Policy B of the specification, as its own three branches read once the
limit comparison is dropped: Normal on small total delay, RampGate on
large ramp delay, TaxiGround otherwise. -/
def classifySpecB (totalDelay rampDelay : ℚ) : String :=
  if totalDelay ≤ 15 then "Normal"
  else if rampDelay ≥ 15 then "Ramp (Gate)"
  else "Taxi (Ground)"

/-- The specification's resolve_relative: place the candidate on the
anchor's calendar date with the given hour and minute, then subtract one
day when anchor hour < 4 and candidate hour > 20, add one day when anchor
hour > 20 and candidate hour < 4, else leave unadjusted (the candidate
hour of a valid clock string is its parsed hour field). -/
def specResolveRelative (anchor : ℤ) (h m : ℕ) : ℤ :=
  let cand := dayStart anchor + 60 * h + m
  if tsHour anchor < 4 ∧ (h : ℤ) > 20 then cand - 1440
  else if tsHour anchor > 20 ∧ (h : ℤ) < 4 then cand + 1440
  else cand

/-- Qualifying taxi-time samples of a year-month, as the specification
words it: the taxi times of the records whose scheduled timestamp falls
in that year-month and whose taxi time is positive. -/
def qualTaxi (rows : List Row) (ym : ℤ × ℤ) : List ℚ :=
  (rows.filter fun r => ymKey r = some ym ∧ 0 < (calc_all_times r).taxiTime).map
    fun r => (calc_all_times r).taxiTime

/-- The snow-delay fold of the raw clock-minute difference into
(-720, 720] ∪ [-720, 720]: add a day below -720, subtract one above 720. -/
def specAdjust (d : ℤ) : ℤ :=
  if d < -720 then d + 1440 else if d > 720 then d - 1440 else d

/-! ### Helper lemmas -/

theorem parseClock_le {s : String} {h m : ℕ} (hp : parseClock s = some (h, m)) :
    h ≤ 23 ∧ m ≤ 59 := by
  unfold parseClock parseClockChars at hp
  repeat' split at hp
  all_goals simp_all

theorem tsHour_replaceHM (t : ℤ) {h m : ℕ} (hh : h ≤ 23) (hm : m ≤ 59) :
    tsHour (replaceHM t h m) = h := by
  unfold tsHour replaceHM dayStart
  omega

theorem rolloverResolve_eq_spec (anchor : ℤ) {h m : ℕ} (hh : h ≤ 23) (hm : m ≤ 59) :
    rolloverResolve anchor h m = specResolveRelative anchor h m := by
  simp only [rolloverResolve, specResolveRelative, replaceHM, tsHour, dayStart]
  split_ifs <;> omega

theorem calc_ramFull (r : Row) {std : ℤ} (hstd : parse_dt r.date r.std = some std) :
    (calc_all_times r).ramFull = resolveRam std r.ram := by
  simp [calc_all_times, hstd]

theorem calc_atdFull (r : Row) {std : ℤ} (hstd : parse_dt r.date r.std = some std) :
    (calc_all_times r).atdFull = resolveAtd std (resolveRam std r.ram) r.atd := by
  simp [calc_all_times, hstd]

/-! ### Claim theorems -/

/-- C1: for every record classified by the statistical (Policy B)
classifier, total_delay ≤ 15 gives Normal, otherwise ramp_delay ≥ 15
gives Ramp (Gate), otherwise the result is Taxi (Ground) — for every
taxi time and every monthly sigma1 limit cell, i.e. the limit comparison
never changes the outcome. -/
theorem claim_C1 : ∀ (td rd tt : ℚ) (lim : Option ℚ),
    classify_delay_stat td rd tt lim = classifySpecB td rd := by
  intro td rd tt lim
  unfold classify_delay_stat classifySpecB
  split_ifs <;> simp

/-- C2: resolving a parseable HH:MM clock string against an anchor places
the candidate on the anchor's calendar date with the parsed hour and
minute and applies exactly the hour<4 / hour>20 day adjustment; in
particular anchor 23:50 with clock 00:10 lands 20 minutes after the
anchor, anchor 02:00 with clock 23:40 lands on the previous calendar day,
and anchor 12:00 with clock 12:05 stays on the same date unadjusted. -/
theorem claim_C2 :
    (∀ (anchor : ℤ) (s : String) (h m : ℕ), parseClock s = some (h, m) →
        rolloverResolve anchor h m = specResolveRelative anchor h m)
    ∧ resolveRam (20000 * 1440 + 1430) (some "00:10") = some (20000 * 1440 + 1430 + 20)
    ∧ (resolveRam (20000 * 1440 + 120) (some "23:40") = some (20000 * 1440 - 20)
        ∧ dayOf (20000 * 1440 - 20) = dayOf (20000 * 1440 + 120) - 1)
    ∧ (resolveRam (20000 * 1440 + 720) (some "12:05") = some (replaceHM (20000 * 1440 + 720) 12 5)
        ∧ dayOf (replaceHM (20000 * 1440 + 720) 12 5) = dayOf (20000 * 1440 + 720)) := by
  refine ⟨fun anchor s h m hp => ?_, by decide, ⟨by decide, by decide⟩, by decide, by decide⟩
  obtain ⟨hh, hm⟩ := parseClock_le hp
  exact rolloverResolve_eq_spec anchor hh hm

theorem claim_C2_witness :
    parseClock "10:30" = some (10, 30)
    ∧ rolloverResolve 0 10 30 = specResolveRelative 0 10 30 :=
  ⟨by decide, claim_C2.1 0 "10:30" 10 30 (by decide)⟩

/-- C3: the actual-departure clock time is resolved against the resolved
ramp-out timestamp when it exists and the scheduled timestamp otherwise;
the candidate is built on the base's calendar date with the parsed hour
and minute, one day is added exactly when the candidate is strictly
earlier than the base, and the result is never strictly earlier than the
base. -/
theorem claim_C3 (r : Row) (std : ℤ) (hstd : parse_dt r.date r.std = some std)
    (s : String) (h m : ℕ) (hatd : r.atd = some s) (hp : parseClock s = some (h, m)) :
    (calc_all_times r).atdFull =
      some (if dayStart ((resolveRam std r.ram).getD std) + 60 * h + m
              < (resolveRam std r.ram).getD std
            then dayStart ((resolveRam std r.ram).getD std) + 60 * h + m + 1440
            else dayStart ((resolveRam std r.ram).getD std) + 60 * h + m)
    ∧ ∀ t, (calc_all_times r).atdFull = some t → (resolveRam std r.ram).getD std ≤ t := by
  have h1 : (calc_all_times r).atdFull =
      some (if dayStart ((resolveRam std r.ram).getD std) + 60 * h + m
              < (resolveRam std r.ram).getD std
            then dayStart ((resolveRam std r.ram).getD std) + 60 * h + m + 1440
            else dayStart ((resolveRam std r.ram).getD std) + 60 * h + m) := by
    rw [calc_atdFull r hstd]
    simp [resolveAtd, hatd, hp, replaceHM]
  refine ⟨h1, fun t ht => ?_⟩
  rw [h1] at ht
  have h2 := Option.some.inj ht
  unfold dayStart at h2
  split_ifs at h2 <;> omega

theorem claim_C3_witness :
    (resolveRam 28319640 (some "10:30")).getD 28319640 ≤ 28319700 :=
  (claim_C3 ⟨"231105", "10:00", some "10:30", some "11:00", none⟩ 28319640 (by decide)
    "11:00" 11 0 rfl (by decide)).2 28319700 (by decide)

theorem calc_taxiTime (r : Row) {std : ℤ} (hstd : parse_dt r.date r.std = some std) :
    (calc_all_times r).taxiTime =
      match r.atdRam with
      | some v => (pyFloatCell v).getD 0
      | none =>
        match resolveAtd std (resolveRam std r.ram) r.atd, resolveRam std r.ram with
        | some a, some rm => ((a - rm : ℤ) : ℚ)
        | _, _ => 0 := by
  simp [calc_all_times, hstd]

/-- C4 counterexample: a record whose scheduled timestamp parses (anchor
present) and whose ramp-out resolves, yet whose actual-departure
timestamp is resolved against the ramp-out timestamp with the
add-a-day-if-earlier rule, not against the scheduled anchor with the
hour<4 / hour>20 rollover rule: Date 231105, STD 10:00, RAM 11:00,
ATD 09:00 yields next-day 09:00 (28321020), while resolution relative to
the scheduled anchor would yield same-day 09:00 (28319580). -/
theorem claim_C4_counterexample :
    parse_dt "231105" "10:00" = some 28319640
    ∧ (calc_all_times ⟨"231105", "10:00", some "11:00", some "09:00", none⟩).ramFull.isSome
    ∧ (calc_all_times ⟨"231105", "10:00", some "11:00", some "09:00", none⟩).atdFull = some 28321020
    ∧ parseClock "09:00" = some (9, 0)
    ∧ specResolveRelative 28319640 9 0 = 28319580
    ∧ (28321020 : ℤ) ≠ 28319580 := by decide

/-- C4 amended: when the scheduled timestamp is missing nothing is
resolved at all; when it parses, the ramp-out timestamp is resolved
relative to the scheduled anchor with the midnight-rollover hour rule,
and the actual-departure timestamp is resolved relative to the resolved
ramp-out timestamp whenever it exists (relative to the scheduled
timestamp only otherwise) with the add-one-day-if-earlier rule. -/
theorem claim_C4_amended : ∀ r : Row,
    (parse_dt r.date r.std = none →
      (calc_all_times r).ramFull = none ∧ (calc_all_times r).atdFull = none)
    ∧ ∀ std, parse_dt r.date r.std = some std →
        (calc_all_times r).ramFull
          = (r.ram.bind fun s => (parseClock s).map fun hm => specResolveRelative std hm.1 hm.2)
        ∧ (calc_all_times r).atdFull
          = (r.atd.bind fun s => (parseClock s).map fun hm =>
              let base := (resolveRam std r.ram).getD std
              let cand := dayStart base + 60 * hm.1 + hm.2
              if cand < base then cand + 1440 else cand) := by
  intro r
  constructor
  · intro h0
    simp [calc_all_times, h0]
  · intro std hstd
    constructor
    · rw [calc_ramFull r hstd]
      unfold resolveRam
      cases r.ram with
      | none => rfl
      | some s =>
        cases hp : parseClock s with
        | none => simp [hp]
        | some hm2 =>
          obtain ⟨h, m⟩ := hm2
          simp only [Option.some_bind, hp]
          simp only [Option.map_some']
          exact congrArg some
            (rolloverResolve_eq_spec std (parseClock_le hp).1 (parseClock_le hp).2)
    · rw [calc_atdFull r hstd]
      unfold resolveAtd
      cases r.atd with
      | none => rfl
      | some s =>
        cases hp : parseClock s with
        | none => simp [hp]
        | some hm2 => simp [hp, replaceHM]

theorem claim_C4_witness :
    parse_dt "nan" "nan" = none
    ∧ ((calc_all_times ⟨"nan", "nan", none, none, none⟩).ramFull = none
        ∧ (calc_all_times ⟨"nan", "nan", none, none, none⟩).atdFull = none) :=
  ⟨by decide, (claim_C4_amended ⟨"nan", "nan", none, none, none⟩).1 (by decide)⟩

/-- C5 counterexample: a present but float-unparseable ATD-RAM cell
yields taxi time 0 even though both timestamps resolved with a
30-minute difference (first record), and a record whose scheduled
timestamp does not parse yields taxi time 0 even though its ATD-RAM
cell holds the parseable value 42 (second record); the claim prescribes
30 and 42 respectively. -/
theorem claim_C5_counterexample :
    ((calc_all_times ⟨"231105", "10:00", some "10:30", some "11:00", some (.str "abc")⟩).taxiTime = 0
      ∧ (calc_all_times ⟨"231105", "10:00", some "10:30", some "11:00", some (.str "abc")⟩).atdFull
          = some 28319700
      ∧ (calc_all_times ⟨"231105", "10:00", some "10:30", some "11:00", some (.str "abc")⟩).ramFull
          = some 28319670
      ∧ ((28319700 - 28319670 : ℤ) : ℚ) = 30
      ∧ (0 : ℚ) ≠ 30)
    ∧ ((calc_all_times ⟨"nan", "10:00", some "10:30", some "11:00", some (.num 42)⟩).taxiTime = 0
      ∧ pyFloatCell (.num 42) = some 42
      ∧ (0 : ℚ) ≠ 42) := by decide

/-- C5 amended: when the scheduled timestamp does not parse, taxi time is
0 regardless of the ATD-RAM cell; when it parses, taxi time equals the
float value of a present, non-null, parseable ATD-RAM cell, is 0 for a
present but unparseable one (no fallthrough to the timestamp
difference), and only with the cell absent equals the
actual-departure-minus-ramp-out difference when both resolved, 0
otherwise. -/
theorem claim_C5_amended : ∀ r : Row,
    (parse_dt r.date r.std = none → (calc_all_times r).taxiTime = 0)
    ∧ ((parse_dt r.date r.std).isSome →
        (∀ v q, r.atdRam = some v → pyFloatCell v = some q → (calc_all_times r).taxiTime = q)
        ∧ (∀ v, r.atdRam = some v → pyFloatCell v = none → (calc_all_times r).taxiTime = 0)
        ∧ (r.atdRam = none → ∀ a rm, (calc_all_times r).atdFull = some a →
            (calc_all_times r).ramFull = some rm → (calc_all_times r).taxiTime = ((a - rm : ℤ) : ℚ))
        ∧ (r.atdRam = none →
            ((calc_all_times r).atdFull = none ∨ (calc_all_times r).ramFull = none) →
            (calc_all_times r).taxiTime = 0)) := by
  intro r
  constructor
  · intro h0
    simp [calc_all_times, h0]
  · intro hsome
    obtain ⟨std, hstd⟩ := Option.isSome_iff_exists.mp hsome
    refine ⟨?_, ?_, ?_, ?_⟩
    · intro v q hv hq
      rw [calc_taxiTime r hstd, hv]
      simp [hq]
    · intro v hv hq
      rw [calc_taxiTime r hstd, hv]
      simp [hq]
    · intro hnone a rm ha hrm
      have ha2 : resolveAtd std (resolveRam std r.ram) r.atd = some a := by
        rw [← calc_atdFull r hstd]; exact ha
      have hrm2 : resolveRam std r.ram = some rm := by
        rw [← calc_ramFull r hstd]; exact hrm
      rw [calc_taxiTime r hstd, hnone, ha2, hrm2]
    · intro hnone hor
      rw [calc_taxiTime r hstd, hnone]
      rcases hor with h0 | h0
      · have ha2 : resolveAtd std (resolveRam std r.ram) r.atd = none := by
          rw [← calc_atdFull r hstd]; exact h0
        rw [ha2]
      · have hrm2 : resolveRam std r.ram = none := by
          rw [← calc_ramFull r hstd]; exact h0
        rw [hrm2]
        cases resolveAtd std none r.atd <;> rfl

theorem claim_C5_witness :
    (calc_all_times ⟨"231105", "10:00", none, none, some (.num 7)⟩).taxiTime = 7 :=
  ((claim_C5_amended ⟨"231105", "10:00", none, none, some (.num 7)⟩).2 (by decide)).1
    (.num 7) 7 rfl (by decide)

/-- C10 counterexample: the token 48:00 parses under the code's
split-and-int parse (so the code does not return None on it), and the
resulting delay for STD 00:00, ATD 48:00 is 1440, outside [-720, 720]. -/
theorem claim_C10_counterexample :
    parseHM "48:00" = some (48, 0)
    ∧ calculate_delay_minutes "00:00" "48:00" = some 1440
    ∧ ¬((-720 : ℤ) ≤ 1440 ∧ (1440 : ℤ) ≤ 720) := by decide

/-- C10 amended: the snow-delay computation returns None exactly on
parse failure of either token, otherwise the ±1440-adjusted clock-minute
difference; the defined result lies in [-720, 720] whenever both parsed
tokens are genuine clock times (hours in 0..23, minutes in 0..59) — but
not for arbitrary parseable tokens, since the int parse accepts
out-of-range fields. -/
theorem calculate_delay_eq {s t : String} {h1 m1 h2 m2 : ℤ}
    (hs : parseHM s = some (h1, m1)) (ht : parseHM t = some (h2, m2)) :
    calculate_delay_minutes s t = some (specAdjust (h2 * 60 + m2 - (h1 * 60 + m1))) := by
  simp only [calculate_delay_minutes, hs, ht, specAdjust]
  split_ifs <;> rfl

theorem claim_C10_amended : ∀ s t : String,
    ((parseHM s = none ∨ parseHM t = none) → calculate_delay_minutes s t = none)
    ∧ (∀ h1 m1 h2 m2 : ℤ, parseHM s = some (h1, m1) → parseHM t = some (h2, m2) →
        calculate_delay_minutes s t = some (specAdjust (h2 * 60 + m2 - (h1 * 60 + m1))))
    ∧ (∀ h1 m1 h2 m2 : ℤ, parseHM s = some (h1, m1) → parseHM t = some (h2, m2) →
        0 ≤ h1 → h1 ≤ 23 → 0 ≤ m1 → m1 ≤ 59 →
        0 ≤ h2 → h2 ≤ 23 → 0 ≤ m2 → m2 ≤ 59 →
        ∀ d, calculate_delay_minutes s t = some d → -720 ≤ d ∧ d ≤ 720) := by
  intro s t
  refine ⟨?_, ?_, ?_⟩
  · rintro (hn | hn) <;> cases hps : parseHM s <;>
      simp [calculate_delay_minutes, hn, hps]
  · intro h1 m1 h2 m2 hs ht
    exact calculate_delay_eq hs ht
  · intro h1 m1 h2 m2 hs ht hb1 hb2 hb3 hb4 hb5 hb6 hb7 hb8 d hd
    rw [calculate_delay_eq hs ht] at hd
    have h9 := Option.some.inj hd
    unfold specAdjust at h9
    split_ifs at h9 <;> omega

theorem claim_C10_witness :
    calculate_delay_minutes "23:50" "00:10" = some (specAdjust (0 * 60 + 10 - (23 * 60 + 50))) :=
  (claim_C10_amended "23:50" "00:10").2.1 23 50 0 10 (by decide) (by decide)

theorem mem_pipelineRow {table : List MonthStats} {r : Row} {o : OutRecord}
    (ho : o ∈ pipelineRow table r) : ∃ lim, o = mkOut r (ymKey r) lim := by
  unfold pipelineRow at ho
  cases hl : lookupAll table (ymKey r) with
  | nil =>
    rw [hl] at ho
    simp only [List.mem_singleton] at ho
    exact ⟨none, ho⟩
  | cons s ms =>
    rw [hl] at ho
    obtain ⟨s2, _, hs2⟩ := List.mem_map.mp ho
    exact ⟨limitOf s2, hs2.symm⟩

theorem pipelineRow_ne_nil (table : List MonthStats) (r : Row) :
    pipelineRow table r ≠ [] := by
  unfold pipelineRow
  cases hl : lookupAll table (ymKey r) <;> simp

theorem statsTable_ym_map (rows : List Row) :
    (statsTable rows).map (fun s => s.ym)
      = ((rows.filter fun r => 0 < (calc_all_times r).taxiTime).filterMap ymKey).dedup := by
  unfold statsTable
  rw [List.map_map]
  induction ((rows.filter fun r => 0 < (calc_all_times r).taxiTime).filterMap ymKey).dedup with
  | nil => rfl
  | cons a t ih =>
    simp only [List.map_cons]
    rw [ih]
    rfl

theorem statsTable_ym_nodup (rows : List Row) :
    ((statsTable rows).map fun s => s.ym).Nodup := by
  rw [statsTable_ym_map]
  exact List.nodup_dedup _

theorem lookupAll_len {table : List MonthStats}
    (hn : (table.map fun s => s.ym).Nodup) (k : Option (ℤ × ℤ)) :
    (lookupAll table k).length ≤ 1 := by
  cases k with
  | none => simp [lookupAll]
  | some k2 =>
    unfold lookupAll
    induction table with
    | nil => simp
    | cons s t ih =>
      simp only [List.map_cons, List.nodup_cons] at hn
      by_cases hs : s.ym = k2
      · have ht : t.filter (fun s2 => s2.ym = k2) = [] := by
          rw [List.filter_eq_nil_iff]
          intro a ha hak
          exact hn.1 (by
            have : s.ym = a.ym := by rw [hs, of_decide_eq_true hak]
            rw [this]
            exact List.mem_map_of_mem _ ha)
        simp [List.filter_cons, hs, ht]
      · simp only [List.filter_cons, hs, decide_False, if_false]
        exact ih hn.2

theorem pipelineRow_map_row {table : List MonthStats}
    (hn : (table.map fun s => s.ym).Nodup) (r : Row) :
    (pipelineRow table r).map (fun o => o.row) = [r] := by
  have hlen := lookupAll_len hn (ymKey r)
  unfold pipelineRow
  cases hl : lookupAll table (ymKey r) with
  | nil => rfl
  | cons s ms =>
    rw [hl] at hlen
    cases ms with
    | nil => rfl
    | cons s2 ms2 => simp at hlen

theorem pipeline_map_row (rows : List Row) :
    (pipeline rows).map (fun o => o.row) = rows := by
  unfold pipeline
  rw [List.map_flatMap]
  have hrw : (fun r => (pipelineRow (statsTable rows) r).map fun o => o.row)
      = fun r => [r] :=
    funext fun r => pipelineRow_map_row (statsTable_ym_nodup rows) r
  rw [hrw, List.flatMap_singleton']

/-- C6: an unparseable scheduled date or clock token never escapes the
resolution stage: both resolved timestamps are absent, all three derived
metrics are 0, and the record is retained in the pipeline output. -/
theorem claim_C6 : ∀ r : Row, parse_dt r.date r.std = none →
    calc_all_times r = ⟨none, none, 0, 0, 0⟩
    ∧ ∀ rows : List Row, r ∈ rows →
        ∃ o : OutRecord, o ∈ pipeline rows ∧ o.row = r
          ∧ o.derived = ⟨none, none, 0, 0, 0⟩ := by
  intro r h0
  have hc : calc_all_times r = ⟨none, none, 0, 0, 0⟩ := by simp [calc_all_times, h0]
  refine ⟨hc, fun rows hr => ?_⟩
  obtain ⟨o, ho⟩ := List.exists_mem_of_ne_nil _ (pipelineRow_ne_nil (statsTable rows) r)
  obtain ⟨lim, hlim⟩ := mem_pipelineRow ho
  subst hlim
  exact ⟨mkOut r (ymKey r) lim, List.mem_flatMap.mpr ⟨r, hr, ho⟩, rfl, hc⟩

theorem claim_C6_witness :
    parse_dt "nan" "nan" = none
    ∧ calc_all_times ⟨"nan", "nan", none, none, none⟩ = ⟨none, none, 0, 0, 0⟩ :=
  ⟨by decide, (claim_C6 ⟨"nan", "nan", none, none, none⟩ (by decide)).1⟩

/-- C7: the core pipeline (resolution, metrics, aggregation and merge,
classification — everything before the stand/zone join) produces exactly
one output record per input record, in input order, for every batch. -/
theorem claim_C7 : ∀ rows : List Row, (pipeline rows).map (fun o => o.row) = rows :=
  pipeline_map_row

theorem qualTaxi_eq (rows : List Row) (ym : ℤ × ℤ) :
    ((rows.filter fun r => 0 < (calc_all_times r).taxiTime).filter
        fun r => ymKey r = some ym).map (fun r => (calc_all_times r).taxiTime)
      = qualTaxi rows ym := by
  unfold qualTaxi
  rw [List.filter_filter]
  congr 1
  apply List.filter_congr
  intro a _
  simp [Bool.and_comm]

theorem mem_statsTable {rows : List Row} {s : MonthStats} (hs : s ∈ statsTable rows) :
    s.mean = sampleMean (qualTaxi rows s.ym) ∧ s.std2 = sampleVar (qualTaxi rows s.ym)
      ∧ qualTaxi rows s.ym ≠ [] := by
  unfold statsTable at hs
  obtain ⟨ym, hym, hrfl⟩ := List.mem_map.mp hs
  subst hrfl
  have hq := qualTaxi_eq rows ym
  refine ⟨by rw [← hq], by rw [← hq], ?_⟩
  rw [← hq]
  obtain ⟨r, hrv, hymr⟩ := List.mem_filterMap.mp (List.mem_dedup.mp hym)
  intro hnil
  have : (calc_all_times r).taxiTime
      ∈ ((rows.filter fun r => 0 < (calc_all_times r).taxiTime).filter
          fun r => ymKey r = some ym).map (fun r => (calc_all_times r).taxiTime) :=
    List.mem_map_of_mem _ (List.mem_filter.mpr ⟨hrv, by simp [hymr]⟩)
  rw [hnil] at this
  exact absurd this (List.not_mem_nil _)

theorem statsTable_absent {rows : List Row} {ym : ℤ × ℤ}
    (h0 : qualTaxi rows ym = []) : lookupAll (statsTable rows) (some ym) = [] := by
  unfold lookupAll
  rw [List.filter_eq_nil_iff]
  intro s hs heq
  have h1 := (mem_statsTable hs).2.2
  rw [of_decide_eq_true heq] at h1
  exact h1 h0

/-- C8: the monthly statistics are grouped by calendar year-month of the
scheduled timestamp over records with positive taxi time only, carrying
the sample mean and the sample standard deviation (represented here by
the sample variance, defined on exactly the same inputs); a group with
fewer than 2 qualifying records has undefined deviation and sigma1
limit, a year-month with none has no statistics row at all, and
classification with an undefined limit coincides with classification
under the fixed default limit 30 (and is total, so never raises). -/
theorem claim_C8 :
    (∀ (rows : List Row) (s : MonthStats), s ∈ statsTable rows →
        s.mean = sampleMean (qualTaxi rows s.ym)
        ∧ s.std2 = sampleVar (qualTaxi rows s.ym)
        ∧ qualTaxi rows s.ym ≠ [])
    ∧ (∀ (rows : List Row) (s : MonthStats), s ∈ statsTable rows →
        (qualTaxi rows s.ym).length < 2 → s.std2 = none ∧ limitOf s = none)
    ∧ (∀ (rows : List Row) (ym : ℤ × ℤ), qualTaxi rows ym = [] →
        lookupAll (statsTable rows) (some ym) = [])
    ∧ (∀ td rd tt : ℚ,
        classify_delay_stat td rd tt none = classify_delay_stat td rd tt (some 30)) := by
  refine ⟨fun rows s hs => mem_statsTable hs, ?_, fun rows ym h0 => statsTable_absent h0, ?_⟩
  · intro rows s hs hlen
    have h1 := (mem_statsTable hs).2.1
    have h2 : sampleVar (qualTaxi rows s.ym) = none := by
      unfold sampleVar
      rw [if_pos hlen]
    refine ⟨by rw [h1, h2], ?_⟩
    unfold limitOf
    rw [h1, h2]
    rfl
  · intro td rd tt
    rfl

theorem claim_C8_witness :
    qualTaxi [] (2023, 11) = []
    ∧ lookupAll (statsTable []) (some (2023, 11)) = [] :=
  ⟨by decide, claim_C8.2.2.1 [] (2023, 11) (by decide)⟩

/-- C9: every record of every batch is assigned a delay cause that is
exactly one of the three categories, never absent. -/
theorem claim_C9 : ∀ (rows : List Row) (o : OutRecord), o ∈ pipeline rows →
    o.delayCause = "Normal" ∨ o.delayCause = "Ramp (Gate)" ∨ o.delayCause = "Taxi (Ground)" := by
  intro rows o ho
  obtain ⟨r, _, ho2⟩ := List.mem_flatMap.mp ho
  obtain ⟨lim, hlim⟩ := mem_pipelineRow ho2
  subst hlim
  show classify_delay_stat _ _ _ _ = _ ∨ classify_delay_stat _ _ _ _ = _
      ∨ classify_delay_stat _ _ _ _ = _
  unfold classify_delay_stat
  split_ifs <;> simp

theorem claim_C9_witness :
    (mkOut ⟨"nan", "nan", none, none, none⟩ none none).delayCause = "Normal"
    ∨ (mkOut ⟨"nan", "nan", none, none, none⟩ none none).delayCause = "Ramp (Gate)"
    ∨ (mkOut ⟨"nan", "nan", none, none, none⟩ none none).delayCause = "Taxi (Ground)" :=
  claim_C9 [⟨"nan", "nan", none, none, none⟩]
    (mkOut ⟨"nan", "nan", none, none, none⟩ none none) (by decide)

end AirportDelay
